import Mathlib

/-!
Verification of the cyrus-docker CLI's core services against their
natural-language specification.  The program orchestrates Docker Compose and
an ngrok tunnel; the subsystems modelled here are:

* `DockerService` (image staleness decision table, health polling loop,
  `.env.docker` read/write) — src/services/DockerService.ts
* `StateService` (persisted run state) — src/services/StateService.ts
* `ToolConfigService` (preset expansion and deduplication) —
  src/services/ToolConfigService.ts
* `TunnelService` (URL polling) — src/services/TunnelService.ts
* `StartCommand` (start-flow orchestration) — src/commands/StartCommand.ts

External effects (spawned processes, filesystem, HTTP queries, the system
clock) are modelled by passing their observable outcomes as explicit
parameters, so that every function here is a pure, executable translation of
the corresponding TypeScript.
-/

namespace CyrusDocker

/-! ### DockerService.checkImageStatus (src/services/DockerService.ts, lines 208–240)

`imageExists` is the outcome of the `docker image inspect` existence probe and
`imageHash` the tools-hash label read from the image (`getImageToolsHash`
returns null when the image is missing, the label is absent, or the label is
the empty string — the `hash || null` coercion — so the absent case is
modelled as `none`).  `currentToolsHash` is the hash of the current tools
configuration, `none` when no configuration exists. -/

def checkImageStatus (imageExists : Bool) (imageHash : Option String)
    (currentToolsHash : Option String) : Bool × String :=
  if !imageExists then (true, "Image does not exist")
  else
    match currentToolsHash with
    | none =>
      match imageHash with
      | some _ => (true, "Tools configuration removed")
      | none => (false, "Image up to date (no tools)")
    | some currentHash =>
      match imageHash with
      | none => (true, "Image missing tools hash label")
      | some hash =>
        if hash ≠ currentHash then (true, "Tools configuration changed")
        else (false, "Image up to date")

/-- Modelled from the spec: the six-branch staleness decision table of §4.1,
written exactly in the order the spec lists the branches (image missing;
current hash null and label present; current hash null and label absent;
current hash set and label absent; current hash set and label differing;
otherwise).  This is the specification-side definition that
`checkImageStatus` is compared against. -/
def specImageStatusTable (imageExists : Bool) (imageHash : Option String)
    (currentToolsHash : Option String) : Bool × String :=
  if imageExists = false then (true, "Image does not exist")
  else if currentToolsHash = none ∧ imageHash ≠ none then
    (true, "Tools configuration removed")
  else if currentToolsHash = none ∧ imageHash = none then
    (false, "Image up to date (no tools)")
  else if currentToolsHash ≠ none ∧ imageHash = none then
    (true, "Image missing tools hash label")
  else if currentToolsHash ≠ none ∧ imageHash ≠ none ∧ imageHash ≠ currentToolsHash then
    (true, "Tools configuration changed")
  else (false, "Image up to date")

/-! ### StateService (src/services/StateService.ts) -/

/-- Persisted CLI state, from `DockerCLIState` in src/config/types.ts.  The
optional JSON fields are `Option`s; `setStopped` writes `undefined` into the
four optional fields, which `JSON.stringify` drops, i.e. `none`. -/
structure DockerCLIState where
  version : String
  isRunning : Bool
  ngrokPid : Option Nat
  tunnelUrl : Option String
  startedAt : Option String
  dockerDir : Option String
deriving DecidableEq, Repr

/-- STATE_VERSION from src/config/constants.ts. -/
def STATE_VERSION : String := "1.0"

/-- `StateService.getDefaultState` (lines 59–64): default/empty state. -/
def getDefaultState : DockerCLIState :=
  { version := STATE_VERSION
    isRunning := false
    ngrokPid := none
    tunnelUrl := none
    startedAt := none
    dockerDir := none }

/-- `StateService.load` (lines 41–54).  The filesystem probe and the
`JSON.parse` call are externalised: `fileExists` is the `existsSync` outcome
and `parseResult` the outcome of reading and parsing the file (`Except.error`
when `readFileSync`/`JSON.parse` throws).  The surrounding `try`/`catch`
turns any failure into the default state. -/
def load (fileExists : Bool) (parseResult : Except String DockerCLIState) :
    DockerCLIState :=
  if fileExists then
    match parseResult with
    | .ok parsed => parsed
    | .error _ => getDefaultState
  else getDefaultState

/-- `StateService.setRunning` (lines 105–113): merge
`{isRunning: true, ngrokPid, tunnelUrl, startedAt: now, dockerDir}` into the
current state via `update`'s object spread.  `now` is the
`new Date().toISOString()` timestamp, passed explicitly. -/
def setRunning (s : DockerCLIState) (ngrokPid : Nat) (tunnelUrl : String)
    (now : String) (dockerDir : String) : DockerCLIState :=
  { s with
    isRunning := true
    ngrokPid := some ngrokPid
    tunnelUrl := some tunnelUrl
    startedAt := some now
    dockerDir := some dockerDir }

/-- `StateService.setStopped` (lines 118–126): merge
`{isRunning: false, ngrokPid: undefined, tunnelUrl: undefined,
startedAt: undefined, dockerDir: undefined}` into the current state. -/
def setStopped (s : DockerCLIState) : DockerCLIState :=
  { s with
    isRunning := false
    ngrokPid := none
    tunnelUrl := none
    startedAt := none
    dockerDir := none }

/-- Run-state invariant of §3 of the spec: `isRunning = true` implies the
four dependent fields are all present, `isRunning = false` implies all four
are absent. -/
def stateInvariant (s : DockerCLIState) : Prop :=
  (s.isRunning = true →
    s.ngrokPid.isSome ∧ s.tunnelUrl.isSome ∧ s.startedAt.isSome ∧ s.dockerDir.isSome) ∧
  (s.isRunning = false →
    s.ngrokPid = none ∧ s.tunnelUrl = none ∧ s.startedAt = none ∧ s.dockerDir = none)

/-! ### Theorems for C1, C2, C9 -/

/-- C1: for every combination of {image exists/absent} × {currentHash
null/set} × {image label absent/matching/differing}, `checkImageStatus`
returns exactly the `(needsRebuild, reason)` pair given by the spec's
six-branch decision table, evaluated in order. -/
theorem checkImageStatus_matches_spec_table :
    ∀ (imageExists : Bool) (imageHash currentToolsHash : Option String),
      checkImageStatus imageExists imageHash currentToolsHash =
        specImageStatusTable imageExists imageHash currentToolsHash := by
  intro e ih ch
  cases e <;> cases ih <;> cases ch <;>
    simp [checkImageStatus, specImageStatusTable]

/-- C2: after every `setRunning` and every `setStopped`, the persisted
run-state invariant holds; `setRunning pid url now dir` yields
`isRunning = true` with all four dependent fields set, and `setStopped`
yields `isRunning = false` with all four fields absent, from every starting
state. -/
theorem setRunning_setStopped_invariant :
    ∀ (s : DockerCLIState) (pid : Nat) (url now dir : String),
      stateInvariant (setRunning s pid url now dir) ∧
      stateInvariant (setStopped s) ∧
      (setRunning s pid url now dir).isRunning = true ∧
      (setRunning s pid url now dir).ngrokPid = some pid ∧
      (setRunning s pid url now dir).tunnelUrl = some url ∧
      (setRunning s pid url now dir).startedAt = some now ∧
      (setRunning s pid url now dir).dockerDir = some dir ∧
      (setStopped s).isRunning = false ∧
      (setStopped s).ngrokPid = none ∧
      (setStopped s).tunnelUrl = none ∧
      (setStopped s).startedAt = none ∧
      (setStopped s).dockerDir = none := by
  intro s pid url now dir
  simp [stateInvariant, setRunning, setStopped]

/-- C9: loading persisted state never fails — when the state file is absent
the default state `{version := STATE_VERSION, isRunning := false}` is
returned, and a file whose content fails to parse (any `Except.error`) is
treated identically to the file-absent case. -/
theorem load_corrupt_treated_as_absent :
    (∀ parseResult : Except String DockerCLIState,
        load false parseResult = getDefaultState) ∧
    (∀ msg : String, load true (Except.error msg) = getDefaultState) ∧
    (∀ (msg : String) (parseResult : Except String DockerCLIState),
        load true (Except.error msg) = load false parseResult) ∧
    getDefaultState.version = STATE_VERSION ∧
    getDefaultState.isRunning = false ∧
    getDefaultState.ngrokPid = none ∧
    getDefaultState.tunnelUrl = none ∧
    getDefaultState.startedAt = none ∧
    getDefaultState.dockerDir = none := by
  refine ⟨fun pr => rfl, fun msg => rfl, fun msg pr => rfl, rfl, rfl, rfl, rfl, rfl, rfl⟩

/-! ### DockerService.waitForHealthy (src/services/DockerService.ts, lines 361–390)

The loop polls `getStatus()` and checks, in order: health `healthy` →
success; container not running → raise "stopped unexpectedly"; health
`unhealthy` → raise "health check failed"; otherwise sleep `delay` and retry
while `Date.now() - startTime < timeout`.

The sequence of `getStatus` results is externalised as `poll : Nat →
ContainerStatus` (the i-th call's result).  Time is idealised exactly as the
claim does: the i-th poll happens at elapsed time `i * delay` (each
iteration's work is instantaneous, each sleep takes `delay`), so the loop
body runs for every i with `i * delay < timeout` and the number of
iterations reaching the poll is `⌈timeout / delay⌉` (for `delay > 0`;
`delay = 0` would not terminate in real time either and is excluded by the
theorems' hypotheses). -/

/-- `ContainerHealth` from src/config/types.ts. -/
inductive ContainerHealth where
  | healthy
  | unhealthy
  | starting
  | none
deriving DecidableEq, Repr

/-- `ContainerStatus` from src/config/types.ts. -/
structure ContainerStatus where
  running : Bool
  health : ContainerHealth
  containerId : Option String := Option.none
  uptimeSeconds : Option Nat := Option.none
deriving DecidableEq, Repr

/-- Outcome of `waitForHealthy`: normal return, or one of the three raised
errors. -/
inductive WaitResult where
  | success
  | stoppedError
  | unhealthyError
  | timeoutError
deriving DecidableEq, Repr

/-- One loop body of `waitForHealthy`, with `i` the poll index and the second
argument the number of remaining iterations whose loop condition holds. -/
def waitForHealthyGo (poll : Nat → ContainerStatus) : Nat → Nat → WaitResult
  | _, 0 => .timeoutError
  | i, n + 1 =>
    if (poll i).health = ContainerHealth.healthy then .success
    else if (poll i).running = false then .stoppedError
    else if (poll i).health = ContainerHealth.unhealthy then .unhealthyError
    else waitForHealthyGo poll (i + 1) n

/-- Number of loop iterations of `waitForHealthy` that pass the
`Date.now() - startTime < timeout` check, i.e. the number of indices i with
`i * delay < timeout` (= `⌈timeout / delay⌉` when `delay > 0`). -/
def numPolls (timeout delay : Nat) : Nat := (timeout + delay - 1) / delay

/-- `DockerService.waitForHealthy` under the timing model described above. -/
def waitForHealthy (poll : Nat → ContainerStatus) (timeout delay : Nat) :
    WaitResult :=
  waitForHealthyGo poll 0 (numPolls timeout delay)

/-- Status on which the polling loop keeps going: not healthy (no success),
running (no stopped error), not unhealthy (no health-check error). -/
def continuesPolling (s : ContainerStatus) : Prop :=
  s.health ≠ ContainerHealth.healthy ∧ s.running = true ∧
    s.health ≠ ContainerHealth.unhealthy

theorem numPolls_lt_iff (timeout delay i : Nat) (hd : 0 < delay) :
    i < numPolls timeout delay ↔ i * delay < timeout := by
  have h1 : i < numPolls timeout delay ↔ (i + 1) * delay ≤ timeout + delay - 1 := by
    unfold numPolls
    rw [Nat.lt_iff_add_one_le, Nat.le_div_iff_mul_le hd]
  have h2 : (i + 1) * delay = i * delay + delay := by ring
  rw [h1, h2]
  have h3 : ∀ q : Nat, (q + delay ≤ timeout + delay - 1) ↔ q < timeout := by
    intro q; omega
  exact h3 (i * delay)

theorem waitForHealthyGo_continues (poll : Nat → ContainerStatus) (i n : Nat)
    (h : continuesPolling (poll i)) :
    waitForHealthyGo poll i (n + 1) = waitForHealthyGo poll (i + 1) n := by
  obtain ⟨h1, h2, h3⟩ := h
  simp [waitForHealthyGo, h1, h2, h3]

theorem waitForHealthyGo_skip (poll : Nat → ContainerStatus) :
    ∀ (m i n : Nat), m ≤ n →
      (∀ j, j < m → continuesPolling (poll (i + j))) →
      waitForHealthyGo poll i n = waitForHealthyGo poll (i + m) (n - m) := by
  intro m
  induction m with
  | zero => intro i n _ _; simp
  | succ k ih =>
    intro i n hmn h
    obtain ⟨n', rfl⟩ : ∃ n', n = n' + 1 := ⟨n - 1, by omega⟩
    have h0 : continuesPolling (poll i) := by simpa using h 0 (by omega)
    calc waitForHealthyGo poll i (n' + 1)
        = waitForHealthyGo poll (i + 1) n' := waitForHealthyGo_continues poll i n' h0
      _ = waitForHealthyGo poll (i + 1 + k) (n' - k) := by
          refine ih (i + 1) n' (by omega) ?_
          intro j hj
          have hjj := h (j + 1) (by omega)
          rw [show i + (j + 1) = i + 1 + j from by omega] at hjj
          exact hjj
      _ = waitForHealthyGo poll (i + (k + 1)) (n' + 1 - (k + 1)) := by
          rw [show i + 1 + k = i + (k + 1) from by omega,
            show n' - k = n' + 1 - (k + 1) from by omega]

theorem waitForHealthyGo_timeout (poll : Nat → ContainerStatus) :
    ∀ (n i : Nat), (∀ j, j < n → continuesPolling (poll (i + j))) →
      waitForHealthyGo poll i n = .timeoutError := by
  intro n
  induction n with
  | zero => intro i _; rfl
  | succ m ih =>
    intro i h
    have h0 : continuesPolling (poll i) := by simpa using h 0 (by omega)
    rw [waitForHealthyGo_continues poll i m h0]
    refine ih (i + 1) ?_
    intro j hj
    have hjj := h (j + 1) (by omega)
    rw [show i + (j + 1) = i + 1 + j from by omega] at hjj
    exact hjj

/-- C3: over any sequence of `getStatus` results, `waitForHealthy` succeeds
as soon as a polled status has health "healthy"; it raises immediately (no
further polling) as soon as a polled status reports the container not
running or health "unhealthy"; and if every status polled before the timeout
keeps the loop going, it raises a timeout error once elapsed time reaches
`timeout`.  Poll i happens at elapsed time `i * delay`. -/
theorem waitForHealthy_spec (poll : Nat → ContainerStatus) (timeout delay : Nat)
    (hd : 0 < delay) :
    (∀ i, i * delay < timeout → (∀ j, j < i → continuesPolling (poll j)) →
      (((poll i).health = ContainerHealth.healthy →
          waitForHealthy poll timeout delay = .success) ∧
       ((poll i).health ≠ ContainerHealth.healthy →
        ((poll i).running = false ∨ (poll i).health = ContainerHealth.unhealthy) →
          waitForHealthy poll timeout delay = .stoppedError ∨
          waitForHealthy poll timeout delay = .unhealthyError))) ∧
    ((∀ i, i * delay < timeout → continuesPolling (poll i)) →
      waitForHealthy poll timeout delay = .timeoutError) := by
  constructor
  · intro i hi hprior
    have hiN : i < numPolls timeout delay := (numPolls_lt_iff timeout delay i hd).mpr hi
    have hskip : waitForHealthy poll timeout delay
        = waitForHealthyGo poll i (numPolls timeout delay - i) := by
      unfold waitForHealthy
      have := waitForHealthyGo_skip poll i 0 (numPolls timeout delay)
        (Nat.le_of_lt hiN) (fun j hj => by simpa using hprior j hj)
      simpa using this
    obtain ⟨m, hm⟩ : ∃ m, numPolls timeout delay - i = m + 1 :=
      ⟨numPolls timeout delay - i - 1, by omega⟩
    constructor
    · intro hh
      rw [hskip, hm]
      simp [waitForHealthyGo, hh]
    · intro hnh hfail
      rcases hfail with hr | hu
      · left
        rw [hskip, hm]
        simp [waitForHealthyGo, hnh, hr]
      · cases hrun : (poll i).running
        · left
          rw [hskip, hm]
          simp [waitForHealthyGo, hnh, hu, hrun]
        · right
          rw [hskip, hm]
          simp [waitForHealthyGo, hnh, hu, hrun]
  · intro hall
    unfold waitForHealthy
    refine waitForHealthyGo_timeout poll (numPolls timeout delay) 0 ?_
    intro j hj
    rw [Nat.zero_add]
    exact hall j ((numPolls_lt_iff timeout delay j hd).mp hj)

/-- Witness for C3: with a 4 ms timeout, a 2 ms poll interval, and a
container that is forever starting, `waitForHealthy` times out. -/
theorem waitForHealthy_spec_witness :
    waitForHealthy (fun _ => { running := true, health := ContainerHealth.starting })
      4 2 = .timeoutError := by
  refine (waitForHealthy_spec (fun _ => { running := true, health := ContainerHealth.starting })
    4 2 (by decide)).2 ?_
  intro i _
  exact ⟨by decide, rfl, by decide⟩

/-! ### TunnelService (src/services/TunnelService.ts)

`getUrl` performs one query against the ngrok local API
(`http://localhost:4040/api/tunnels`).  The outcome of the
`fetch`/`response.json()` pair is externalised: an exception anywhere in the
`try` block, a non-ok response, or an ok response carrying the parsed tunnel
list. -/

/-- One entry of `NgrokTunnelsResponse.tunnels` (TunnelService.ts, lines
15–26); the `config` sub-object is never read by `getUrl` and is omitted. -/
structure NgrokTunnel where
  name : String := ""
  uri : String := ""
  public_url : String
  proto : String
deriving DecidableEq, Repr

/-- Observable outcome of the `fetch` + `response.json()` calls in
`TunnelService.getUrl`. -/
inductive FetchOutcome where
  | fetchError
  | notOk
  | ok (tunnels : List NgrokTunnel)
deriving DecidableEq, Repr

/-- `TunnelService.getUrl` (lines 90–114): null on failed/non-ok queries;
otherwise the first https-proto tunnel's public URL, else the first listed
tunnel's public URL, else null. -/
def getUrl : FetchOutcome → Option String
  | .fetchError => none
  | .notOk => none
  | .ok tunnels =>
    match tunnels.find? (fun t => t.proto == "https") with
    | some httpsTunnel => some httpsTunnel.public_url
    | none =>
      match tunnels with
      | [] => none
      | t :: _ => some t.public_url

/-- `TunnelService.waitForUrl` (lines 66–85), with the i-th `getUrl` result
externalised as `attempt i`.  The result records the returned URL (`none`
models the thrown timeout error) together with the number of `getUrl`
queries performed, so that "exactly maxRetries attempts" is checkable. -/
def waitForUrlGo (attempt : Nat → Option String) : Nat → Nat → Option String × Nat
  | i, 0 => (none, i)
  | i, n + 1 =>
    match attempt i with
    | some url => (some url, i + 1)
    | none => waitForUrlGo attempt (i + 1) n

/-- `waitForUrl` runs the retry loop from attempt 0 with `maxRetries` budget. -/
def waitForUrl (attempt : Nat → Option String) (maxRetries : Nat) :
    Option String × Nat :=
  waitForUrlGo attempt 0 maxRetries

theorem waitForUrlGo_none (attempt : Nat → Option String) :
    ∀ (n i : Nat), (∀ j, j < n → attempt (i + j) = none) →
      waitForUrlGo attempt i n = (none, i + n) := by
  intro n
  induction n with
  | zero => intro i _; rfl
  | succ m ih =>
    intro i h
    have h0 : attempt i = none := by simpa using h 0 (by omega)
    have step : waitForUrlGo attempt i (m + 1) = waitForUrlGo attempt (i + 1) m := by
      simp [waitForUrlGo, h0]
    rw [step, ih (i + 1) (fun j hj => by
      have hjj := h (j + 1) (by omega)
      rw [show i + (j + 1) = i + 1 + j from by omega] at hjj
      exact hjj)]
    rw [show i + 1 + m = i + (m + 1) from by omega]

theorem waitForUrlGo_hit (attempt : Nat → Option String) :
    ∀ (n k i : Nat) (url : String), k < n → attempt (i + k) = some url →
      (∀ j, j < k → attempt (i + j) = none) →
      waitForUrlGo attempt i n = (some url, i + k + 1) := by
  intro n
  induction n with
  | zero => intro k i url hk; omega
  | succ m ih =>
    intro k i url hk hhit hprior
    cases k with
    | zero =>
      have h0 : attempt i = some url := by simpa using hhit
      simp [waitForUrlGo, h0]
    | succ k' =>
      have h0 : attempt i = none := by simpa using hprior 0 (by omega)
      have step : waitForUrlGo attempt i (m + 1) = waitForUrlGo attempt (i + 1) m := by
        simp [waitForUrlGo, h0]
      rw [step, ih k' (i + 1) url (by omega)
        (by rw [show i + 1 + k' = i + (k' + 1) from by omega]; exact hhit)
        (fun j hj => by
          have hjj := hprior (j + 1) (by omega)
          rw [show i + (j + 1) = i + 1 + j from by omega] at hjj
          exact hjj)]
      rw [show i + 1 + k' = i + (k' + 1) from by omega]

/-- C4: against a source that never yields a URL before the budget runs out,
`waitForUrl` queries the source exactly `maxRetries` times and then raises a
timeout error; and if attempt i (0-based, i < maxRetries) is the first to
yield a URL, that URL is returned after exactly i + 1 queries, with no
further attempts. -/
theorem waitForUrl_spec (attempt : Nat → Option String) (maxRetries : Nat) :
    ((∀ i, i < maxRetries → attempt i = none) →
      waitForUrl attempt maxRetries = (none, maxRetries)) ∧
    (∀ i url, i < maxRetries → attempt i = some url →
      (∀ j, j < i → attempt j = none) →
      waitForUrl attempt maxRetries = (some url, i + 1)) := by
  constructor
  · intro h
    unfold waitForUrl
    rw [waitForUrlGo_none attempt maxRetries 0 (fun j hj => by simpa using h j hj)]
    rw [Nat.zero_add]
  · intro i url hi hhit hprior
    unfold waitForUrl
    rw [waitForUrlGo_hit attempt maxRetries i 0 url hi (by simpa using hhit)
      (fun j hj => by simpa using hprior j hj)]
    rw [Nat.zero_add]

/-- Witness for C4: the spec's end-to-end scenario — `waitForUrl` with a
budget of 3 against a source that always reports an empty tunnel list (so
`getUrl` always yields null) raises the timeout error after exactly 3
attempts. -/
theorem waitForUrl_spec_witness :
    waitForUrl (fun _ => getUrl (FetchOutcome.ok [])) 3 = (none, 3) :=
  (waitForUrl_spec (fun _ => getUrl (FetchOutcome.ok [])) 3).1 (fun _ _ => rfl)

/-- C7: `getUrl` returns the public URL of an https-proto tunnel whenever at
least one is present; with a non-empty tunnel list and no https tunnel it
returns the first listed tunnel's public URL; and it returns null — never
raising — on an empty tunnel list, a non-ok response, or a failed
query/parse. -/
theorem getUrl_spec :
    (∀ tunnels : List NgrokTunnel, (∃ t ∈ tunnels, t.proto = "https") →
      ∃ t ∈ tunnels, t.proto = "https" ∧
        getUrl (FetchOutcome.ok tunnels) = some t.public_url) ∧
    (∀ (t : NgrokTunnel) (rest : List NgrokTunnel),
      (∀ u ∈ t :: rest, u.proto ≠ "https") →
      getUrl (FetchOutcome.ok (t :: rest)) = some t.public_url) ∧
    getUrl (FetchOutcome.ok []) = none ∧
    getUrl FetchOutcome.notOk = none ∧
    getUrl FetchOutcome.fetchError = none := by
  refine ⟨?_, ?_, rfl, rfl, rfl⟩
  · intro tunnels hex
    have hsome : (tunnels.find? (fun t => t.proto == "https")).isSome := by
      rw [List.find?_isSome]
      obtain ⟨t, ht, hp⟩ := hex
      exact ⟨t, ht, by simp [hp]⟩
    obtain ⟨t, hfind⟩ := Option.isSome_iff_exists.mp hsome
    refine ⟨t, List.mem_of_find?_eq_some hfind, ?_, ?_⟩
    · have := List.find?_some hfind
      simpa using this
    · simp [getUrl, hfind]
  · intro t rest hnone
    have hfind : (t :: rest).find? (fun u => u.proto == "https") = none := by
      rw [List.find?_eq_none]
      intro u hu
      simpa using hnone u hu
    simp [getUrl, hfind]

/-- Witness for C7: a response whose only tunnel is non-https falls back to
that tunnel's public URL. -/
theorem getUrl_spec_witness :
    getUrl (FetchOutcome.ok
      [{ public_url := "http://example.invalid", proto := "http" }]) =
      some "http://example.invalid" :=
  getUrl_spec.2.1 { public_url := "http://example.invalid", proto := "http" } []
    (by intro u hu; rw [List.mem_singleton] at hu; subst hu; decide)

/-! ### ToolConfigService.resolveConfig (src/services/ToolConfigService.ts, lines 71–111)

`resolveConfig` starts from empty lists, pushes each preset's contributions
in preset-list order (unknown preset names are skipped with a warning), then
pushes the user's own lists, then replaces each of the four package lists by
`[...new Set(list)]`.  JavaScript `Set` iteration follows insertion order,
so `[...new Set(list)]` keeps the first occurrence of each element in order;
`jsSetDedup` renders exactly that.  Optional absent arrays contribute
nothing and are modelled as the default `[]`. -/

/-- `PresetDefinition` from src/config/types.ts; absent optional arrays are
the empty list. -/
structure PresetDefinition where
  name : String
  description : String
  apt : List String := []
  npm : List String := []
  pip : List String := []
  cargo : List String := []
  commands : List String := []
deriving Repr

/-- `TOOL_PRESETS` from src/config/constants.ts, as the lookup the code
performs (`TOOL_PRESETS[preset]`, `none` for unknown names). -/
def TOOL_PRESETS : String → Option PresetDefinition
  | "python" => some
    { name := "Python"
      description := "Python 3, pip, venv, pytest, black, ruff"
      apt := ["python3", "python3-pip", "python3-venv"]
      pip := ["pytest", "black", "ruff"] }
  | "rust" => some
    { name := "Rust"
      description := "Rust toolchain + cargo"
      commands :=
        ["curl --proto \x27=https\x27 --tlsv1.2 -sSf https://sh.rustup.rs | sh -s -- -y"] }
  | "go" => some
    { name := "Go"
      description := "Go programming language"
      apt := ["golang-go"] }
  | "ruby" => some
    { name := "Ruby"
      description := "Ruby + Bundler"
      apt := ["ruby-full"]
      commands := ["gem install bundler"] }
  | "java" => some
    { name := "Java"
      description := "OpenJDK 17 + Maven"
      apt := ["openjdk-17-jdk", "maven"] }
  | "aws" => some
    { name := "AWS CLI"
      description := "AWS CLI v2"
      commands :=
        ["curl \"https://awscli.amazonaws.com/awscli-exe-linux-x86_64.zip\" -o \"/tmp/awscliv2.zip\"",
         "unzip -q /tmp/awscliv2.zip -d /tmp",
         "/tmp/aws/install",
         "rm -rf /tmp/awscliv2.zip /tmp/aws"]
      apt := ["unzip"] }
  | "k8s" => some
    { name := "Kubernetes"
      description := "kubectl + helm"
      commands :=
        ["curl -LO https://dl.k8s.io/release/$(curl -L -s https://dl.k8s.io/release/stable.txt)/bin/linux/amd64/kubectl",
         "install -o root -g root -m 0755 kubectl /usr/local/bin/kubectl",
         "rm kubectl",
         "curl https://raw.githubusercontent.com/helm/helm/main/scripts/get-helm-3 | bash"] }
  | "terraform" => some
    { name := "Terraform"
      description := "HashiCorp Terraform"
      commands :=
        ["curl -fsSL https://apt.releases.hashicorp.com/gpg | gpg --dearmor -o /etc/apt/keyrings/hashicorp-archive-keyring.gpg",
         "echo \"deb [signed-by=/etc/apt/keyrings/hashicorp-archive-keyring.gpg] https://apt.releases.hashicorp.com bookworm main\" > /etc/apt/sources.list.d/hashicorp.list",
         "apt-get update",
         "apt-get install -y terraform"] }
  | _ => Option.none

/-- `ToolConfig` from src/config/types.ts; absent optional arrays are the
empty list (both contribute nothing in `resolveConfig`). -/
structure ToolConfig where
  presets : List String := []
  apt : List String := []
  npm : List String := []
  pip : List String := []
  cargo : List String := []
  commands : List String := []
  customDockerfile : Option String := Option.none
deriving Repr

/-- `ResolvedToolConfig` from src/services/ToolConfigService.ts. -/
structure ResolvedToolConfig where
  apt : List String
  npm : List String
  pip : List String
  cargo : List String
  commands : List String
  customDockerfile : Option String
deriving DecidableEq, Repr

/-- `[...new Set(xs)]`: set-based deduplication; JS `Set` preserves
insertion order, i.e. keeps the first occurrence of each element. -/
def jsSetDedup : List String → List String
  | [] => []
  | x :: xs => x :: jsSetDedup (xs.filter (fun y => y != x))
termination_by l => l.length
decreasing_by
  simp only [List.length_cons]
  have := List.length_filter_le (fun y => y != x) xs
  omega

/-- Contribution of one preset name to one of the five lists (`[]` both for
an unknown name and for an absent optional array). -/
def presetField (select : PresetDefinition → List String) (preset : String) :
    List String :=
  match TOOL_PRESETS preset with
  | some definition => select definition
  | Option.none => []

/-- The loop over `config.presets` restricted to one list: push each
preset's contribution in order. -/
def accumulateLists (select : PresetDefinition → List String)
    (presets : List String) : List String :=
  presets.foldl (fun acc preset => acc ++ presetField select preset) []

/-- One step of the preset-expansion loop on the whole record. -/
def presetStep (resolved : ResolvedToolConfig) (preset : String) :
    ResolvedToolConfig :=
  match TOOL_PRESETS preset with
  | some definition =>
    { resolved with
      apt := resolved.apt ++ definition.apt
      npm := resolved.npm ++ definition.npm
      pip := resolved.pip ++ definition.pip
      cargo := resolved.cargo ++ definition.cargo
      commands := resolved.commands ++ definition.commands }
  | Option.none => resolved

/-- `ToolConfigService.resolveConfig`: expand presets in list order, append
the user's entries, then deduplicate the four package lists (not the
commands). -/
def resolveConfig (config : ToolConfig) : ResolvedToolConfig :=
  let init : ResolvedToolConfig :=
    { apt := [], npm := [], pip := [], cargo := [], commands := []
      customDockerfile := config.customDockerfile }
  let afterPresets := config.presets.foldl presetStep init
  let withUser : ResolvedToolConfig :=
    { afterPresets with
      apt := afterPresets.apt ++ config.apt
      npm := afterPresets.npm ++ config.npm
      pip := afterPresets.pip ++ config.pip
      cargo := afterPresets.cargo ++ config.cargo
      commands := afterPresets.commands ++ config.commands }
  { withUser with
    apt := jsSetDedup withUser.apt
    npm := jsSetDedup withUser.npm
    pip := jsSetDedup withUser.pip
    cargo := jsSetDedup withUser.cargo }

/-- Accumulated (pre-deduplication) apt list: preset contributions in preset
order, then the user's entries. -/
def accumApt (config : ToolConfig) : List String :=
  accumulateLists (fun d => d.apt) config.presets ++ config.apt

def accumNpm (config : ToolConfig) : List String :=
  accumulateLists (fun d => d.npm) config.presets ++ config.npm

def accumPip (config : ToolConfig) : List String :=
  accumulateLists (fun d => d.pip) config.presets ++ config.pip

def accumCargo (config : ToolConfig) : List String :=
  accumulateLists (fun d => d.cargo) config.presets ++ config.cargo

def accumCommands (config : ToolConfig) : List String :=
  accumulateLists (fun d => d.commands) config.presets ++ config.commands

theorem accumulateLists_acc (select : PresetDefinition → List String) :
    ∀ (presets : List String) (acc : List String),
      presets.foldl (fun a preset => a ++ presetField select preset) acc
        = acc ++ accumulateLists select presets := by
  intro presets
  induction presets with
  | nil => intro acc; simp [accumulateLists]
  | cons p ps ih =>
    intro acc
    simp only [List.foldl_cons, accumulateLists, List.nil_append]
    rw [ih (acc ++ presetField select p), ih (presetField select p)]
    simp [List.append_assoc]

theorem presetsFold_eq (presets : List String) :
    ∀ resolved : ResolvedToolConfig,
      presets.foldl presetStep resolved =
        { apt := resolved.apt ++ accumulateLists (fun d => d.apt) presets
          npm := resolved.npm ++ accumulateLists (fun d => d.npm) presets
          pip := resolved.pip ++ accumulateLists (fun d => d.pip) presets
          cargo := resolved.cargo ++ accumulateLists (fun d => d.cargo) presets
          commands := resolved.commands ++ accumulateLists (fun d => d.commands) presets
          customDockerfile := resolved.customDockerfile } := by
  induction presets with
  | nil =>
    intro r
    cases r
    simp [accumulateLists]
  | cons p ps ih =>
    intro r
    have hstep : presetStep r p =
        { apt := r.apt ++ presetField (fun d => d.apt) p
          npm := r.npm ++ presetField (fun d => d.npm) p
          pip := r.pip ++ presetField (fun d => d.pip) p
          cargo := r.cargo ++ presetField (fun d => d.cargo) p
          commands := r.commands ++ presetField (fun d => d.commands) p
          customDockerfile := r.customDockerfile } := by
      cases r
      simp only [presetStep, presetField]
      cases TOOL_PRESETS p <;> simp
    have hacc : ∀ select : PresetDefinition → List String,
        accumulateLists select (p :: ps)
          = presetField select p ++ accumulateLists select ps := by
      intro select
      simp only [accumulateLists, List.foldl_cons, List.nil_append]
      rw [accumulateLists_acc select ps (presetField select p)]
      rfl
    rw [List.foldl_cons, ih (presetStep r p), hstep]
    simp [hacc, List.append_assoc]

/-- Closed form of `resolveConfig` in terms of the accumulated lists. -/
theorem resolveConfig_eq (config : ToolConfig) :
    resolveConfig config =
      { apt := jsSetDedup (accumApt config)
        npm := jsSetDedup (accumNpm config)
        pip := jsSetDedup (accumPip config)
        cargo := jsSetDedup (accumCargo config)
        commands := accumCommands config
        customDockerfile := config.customDockerfile } := by
  simp only [resolveConfig]
  rw [presetsFold_eq]
  simp [accumApt, accumNpm, accumPip, accumCargo, accumCommands]

theorem jsSetDedup_mem_bound (x : String) :
    ∀ (n : Nat) (l : List String), l.length ≤ n → (x ∈ jsSetDedup l ↔ x ∈ l) := by
  intro n
  induction n with
  | zero =>
    intro l hl
    have hnil : l = [] := List.length_eq_zero.mp (Nat.le_zero.mp hl)
    subst hnil
    simp [jsSetDedup]
  | succ m ih =>
    intro l hl
    cases l with
    | nil => simp [jsSetDedup]
    | cons y ys =>
      rw [jsSetDedup]
      have hlen : (ys.filter (fun z => z != y)).length ≤ m := by
        have := List.length_filter_le (fun z => z != y) ys
        simp only [List.length_cons] at hl
        omega
      constructor
      · intro hx
        rcases List.mem_cons.mp hx with h | h
        · exact h ▸ List.mem_cons_self y ys
        · exact List.mem_cons_of_mem y (List.mem_of_mem_filter ((ih _ hlen).mp h))
      · intro hx
        rcases List.mem_cons.mp hx with h | h
        · exact h ▸ List.mem_cons_self y _
        · by_cases hxy : x = y
          · exact hxy ▸ List.mem_cons_self y _
          · exact List.mem_cons_of_mem y
              ((ih _ hlen).mpr (List.mem_filter.mpr ⟨h, by simp [hxy]⟩))

theorem jsSetDedup_mem (l : List String) (x : String) :
    x ∈ jsSetDedup l ↔ x ∈ l :=
  jsSetDedup_mem_bound x l.length l (Nat.le_refl _)

theorem jsSetDedup_nodup_bound :
    ∀ (n : Nat) (l : List String), l.length ≤ n → (jsSetDedup l).Nodup := by
  intro n
  induction n with
  | zero =>
    intro l hl
    have hnil : l = [] := List.length_eq_zero.mp (Nat.le_zero.mp hl)
    subst hnil
    simp [jsSetDedup]
  | succ m ih =>
    intro l hl
    cases l with
    | nil => simp [jsSetDedup]
    | cons y ys =>
      rw [jsSetDedup]
      have hlen : (ys.filter (fun z => z != y)).length ≤ m := by
        have := List.length_filter_le (fun z => z != y) ys
        simp only [List.length_cons] at hl
        omega
      refine List.nodup_cons.mpr ⟨?_, ih _ hlen⟩
      intro hmem
      have hmem2 := (jsSetDedup_mem _ y).mp hmem
      have := List.mem_filter.mp hmem2
      simp at this

theorem jsSetDedup_nodup (l : List String) : (jsSetDedup l).Nodup :=
  jsSetDedup_nodup_bound l.length l (Nat.le_refl _)

/-- C5: for every input tool configuration, after expanding presets in list
order and appending user entries, each of the four resolved package lists
contains no duplicate entries and has exactly the members of the
accumulated (preset-then-user) list — so a package contributed by both a
preset and the user appears exactly once — while the commands list is
exactly the accumulated command list, preserving multiplicity and order. -/
theorem resolveConfig_dedup_spec (config : ToolConfig) :
    (resolveConfig config).apt.Nodup ∧
    (resolveConfig config).npm.Nodup ∧
    (resolveConfig config).pip.Nodup ∧
    (resolveConfig config).cargo.Nodup ∧
    (∀ x, x ∈ (resolveConfig config).apt ↔ x ∈ accumApt config) ∧
    (∀ x, x ∈ (resolveConfig config).npm ↔ x ∈ accumNpm config) ∧
    (∀ x, x ∈ (resolveConfig config).pip ↔ x ∈ accumPip config) ∧
    (∀ x, x ∈ (resolveConfig config).cargo ↔ x ∈ accumCargo config) ∧
    (resolveConfig config).commands = accumCommands config := by
  rw [resolveConfig_eq]
  refine ⟨jsSetDedup_nodup _, jsSetDedup_nodup _, jsSetDedup_nodup _, jsSetDedup_nodup _,
    ?_, ?_, ?_, ?_, rfl⟩ <;>
    intro x <;> exact jsSetDedup_mem _ x

/-- Modelled from the claim's wording (C10): the order-stable,
first-occurrence deduplication — fold left, appending each element not seen
so far. -/
def specFirstOccurDedup (l : List String) : List String :=
  l.foldl (fun acc x => if x ∈ acc then acc else acc ++ [x]) []

theorem specFirstOccurDedup_acc_bound :
    ∀ (n : Nat) (l : List String), l.length ≤ n → ∀ acc : List String,
      l.foldl (fun a x => if x ∈ a then a else a ++ [x]) acc
        = acc ++ jsSetDedup (l.filter (fun x => !(decide (x ∈ acc)))) := by
  intro n
  induction n with
  | zero =>
    intro l hl acc
    have hnil : l = [] := List.length_eq_zero.mp (Nat.le_zero.mp hl)
    subst hnil
    simp [jsSetDedup]
  | succ m ih =>
    intro l hl acc
    cases l with
    | nil => simp [jsSetDedup]
    | cons x xs =>
      have hxs : xs.length ≤ m := by simp only [List.length_cons] at hl; omega
      by_cases hx : x ∈ acc
      · have hfilter : (x :: xs).filter (fun y => !(decide (y ∈ acc)))
            = xs.filter (fun y => !(decide (y ∈ acc))) := by
          simp [List.filter_cons, hx]
        rw [hfilter, List.foldl_cons, if_pos hx]
        exact ih xs hxs acc
      · have hfilter : (x :: xs).filter (fun y => !(decide (y ∈ acc)))
            = x :: xs.filter (fun y => !(decide (y ∈ acc))) := by
          simp [List.filter_cons, hx]
        rw [hfilter, List.foldl_cons, if_neg hx]
        rw [ih xs hxs (acc ++ [x])]
        rw [jsSetDedup]
        have hpreds : xs.filter (fun y => !(decide (y ∈ acc ++ [x])))
            = (xs.filter (fun y => !(decide (y ∈ acc)))).filter (fun y => y != x) := by
          rw [List.filter_filter]
          refine List.filter_congr ?_
          intro y _
          by_cases hyx : y = x <;> by_cases hyacc : y ∈ acc <;>
            simp [hyx, hyacc]
        rw [hpreds]
        simp

/-- `[...new Set(l)]` equals the order-stable first-occurrence fold. -/
theorem jsSetDedup_eq_specFirstOccurDedup (l : List String) :
    jsSetDedup l = specFirstOccurDedup l := by
  unfold specFirstOccurDedup
  rw [specFirstOccurDedup_acc_bound l.length l (Nat.le_refl _) []]
  simp

/-- C10: the deduplication step of `resolveConfig` is order-stable — each
resolved package list is exactly the first-occurrence-order deduplication of
the accumulated list (preset contributions in preset order, then user
entries). -/
theorem resolveConfig_dedup_order_stable (config : ToolConfig) :
    (resolveConfig config).apt = specFirstOccurDedup (accumApt config) ∧
    (resolveConfig config).npm = specFirstOccurDedup (accumNpm config) ∧
    (resolveConfig config).pip = specFirstOccurDedup (accumPip config) ∧
    (resolveConfig config).cargo = specFirstOccurDedup (accumCargo config) := by
  rw [resolveConfig_eq]
  exact ⟨jsSetDedup_eq_specFirstOccurDedup _, jsSetDedup_eq_specFirstOccurDedup _,
    jsSetDedup_eq_specFirstOccurDedup _, jsSetDedup_eq_specFirstOccurDedup _⟩

/-! ### StartCommand.execute (src/commands/StartCommand.ts, lines 17–113)

The start flow is a straight-line sequence over external outcomes.  Each
outcome the flow branches on is a field of `StartEnv`; the flow itself is
rendered as the sequence of observable actions (`StartEvent`s) it performs.
`exitWithError` (BaseCommand) terminates the process, so every error branch
ends the trace.  `buildOk` covers the whole `buildDockerImage` helper and
`upOk` the `docker compose up` call; both failure kinds are caught by the
same `try`/`catch`, which stops the tunnel and exits.  `waitForHealthy`'s
outcome (`healthOk`) is caught and only logged — control always continues to
`setRunning`.  The trailing log-follow step performs no state changes and is
not part of the trace. -/

/-- Observable actions of the start flow, in execution order. -/
inductive StartEvent where
  | checkedPrereqs
  | warnedAlreadyRunning
  | clearedStaleState
  | tunnelStarted
  | tunnelStopped
  | envUpdated (url : String)
  | buildRan (ok : Bool)
  | upRan (ok : Bool)
  | healthWaited (ok : Bool)
  | stateSetRunning (pid : Nat) (url : String)
  | exitedWithError
  | printedSuccess
deriving DecidableEq, Repr

/-- Outcomes of the external calls the start flow branches on. -/
structure StartEnv where
  prereqsOk : Bool
  stateIsRunning : Bool
  containerRunning : Bool
  hasEnvFile : Bool
  ngrokPid : Option Nat
  urlResult : Option String
  buildOk : Bool
  upOk : Bool
  healthOk : Bool
deriving DecidableEq, Repr

/-- `StartCommand.execute` as the trace of actions it performs under the
outcomes `env`. -/
def startCommandTrace (env : StartEnv) : List StartEvent :=
  if env.prereqsOk = false then [.exitedWithError]
  else if env.stateIsRunning = true ∧ env.containerRunning = true then
    [.checkedPrereqs, .warnedAlreadyRunning]
  else
    let cleanup : List StartEvent :=
      if env.stateIsRunning = true then [.clearedStaleState] else []
    if env.hasEnvFile = false then
      .checkedPrereqs :: cleanup ++ [.exitedWithError]
    else
      match env.ngrokPid with
      | none => .checkedPrereqs :: cleanup ++ [.tunnelStarted, .exitedWithError]
      | some pid =>
        match env.urlResult with
        | none =>
          .checkedPrereqs :: cleanup ++ [.tunnelStarted, .tunnelStopped, .exitedWithError]
        | some url =>
          if env.buildOk = false then
            .checkedPrereqs :: cleanup ++
              [.tunnelStarted, .envUpdated url, .buildRan false, .tunnelStopped,
               .exitedWithError]
          else if env.upOk = false then
            .checkedPrereqs :: cleanup ++
              [.tunnelStarted, .envUpdated url, .buildRan true, .upRan false,
               .tunnelStopped, .exitedWithError]
          else
            .checkedPrereqs :: cleanup ++
              [.tunnelStarted, .envUpdated url, .buildRan true, .upRan true,
               .healthWaited env.healthOk, .stateSetRunning pid url,
               .printedSuccess]

set_option maxHeartbeats 1000000 in
/-- Reaching `stateSetRunning` forces the successful path: prerequisites ok,
no already-running short-circuit, env file present, pid and URL acquired,
build and up successful. -/
theorem stateSetRunning_mem_conditions (env : StartEnv) (pid : Nat) (url : String)
    (hmem : StartEvent.stateSetRunning pid url ∈ startCommandTrace env) :
    env.prereqsOk = true ∧
    ¬(env.stateIsRunning = true ∧ env.containerRunning = true) ∧
    env.hasEnvFile = true ∧ env.ngrokPid = some pid ∧ env.urlResult = some url ∧
    env.buildOk = true ∧ env.upOk = true := by
  obtain ⟨pr, sr, cr, he, np, ur, bo, uo, ho⟩ := env
  cases pr <;> cases sr <;> cases cr <;> cases he <;> cases np <;> cases ur <;>
    cases bo <;> cases uo <;> simp_all [startCommandTrace]

/-- Shape of the trace on the successful path. -/
theorem startCommandTrace_success (env : StartEnv) (pid : Nat) (url : String)
    (hp : env.prereqsOk = true)
    (hsc : ¬(env.stateIsRunning = true ∧ env.containerRunning = true))
    (hhe : env.hasEnvFile = true)
    (hnp : env.ngrokPid = some pid) (hur : env.urlResult = some url)
    (hbo : env.buildOk = true) (huo : env.upOk = true) :
    startCommandTrace env =
      StartEvent.checkedPrereqs ::
        (if env.stateIsRunning = true then [StartEvent.clearedStaleState]
         else ([] : List StartEvent)) ++
        [StartEvent.tunnelStarted, StartEvent.envUpdated url, StartEvent.buildRan true,
         StartEvent.upRan true, StartEvent.healthWaited env.healthOk,
         StartEvent.stateSetRunning pid url, StartEvent.printedSuccess] := by
  unfold startCommandTrace
  rw [hp, hhe, hnp, hur, hbo, huo, if_neg hsc]
  simp

/-- C8: in every execution of the start flow, `setRunning` is committed only
after a successful `compose up` (there is a decomposition of the trace
placing a successful `upRan true` strictly before the `stateSetRunning`
event); on any trace where the tunnel URL is never acquired or building or
bringing the stack up fails, the state is never marked running; and when the
flow reaches a successful container start, the commit happens regardless of
the health-gate outcome. -/
theorem start_flow_commit_after_up (env : StartEnv) :
    (∀ pid url, StartEvent.stateSetRunning pid url ∈ startCommandTrace env →
      ∃ pre post, startCommandTrace env = pre ++ StartEvent.stateSetRunning pid url :: post ∧
        StartEvent.upRan true ∈ pre) ∧
    ((env.urlResult = none ∨ env.buildOk = false ∨ env.upOk = false) →
      ∀ pid url, StartEvent.stateSetRunning pid url ∉ startCommandTrace env) ∧
    (env.prereqsOk = true →
     ¬(env.stateIsRunning = true ∧ env.containerRunning = true) →
     env.hasEnvFile = true →
     ∀ pid url, env.ngrokPid = some pid → env.urlResult = some url →
     env.buildOk = true → env.upOk = true →
      StartEvent.stateSetRunning pid url ∈ startCommandTrace env) := by
  refine ⟨?_, ?_, ?_⟩
  · intro pid url hmem
    obtain ⟨hp, hsc, hhe, hnp, hur, hbo, huo⟩ :=
      stateSetRunning_mem_conditions env pid url hmem
    refine ⟨StartEvent.checkedPrereqs ::
        (if env.stateIsRunning = true then [StartEvent.clearedStaleState]
         else ([] : List StartEvent)) ++
        [StartEvent.tunnelStarted, StartEvent.envUpdated url, StartEvent.buildRan true,
         StartEvent.upRan true, StartEvent.healthWaited env.healthOk],
      [StartEvent.printedSuccess], ?_, ?_⟩
    · rw [startCommandTrace_success env pid url hp hsc hhe hnp hur hbo huo]
      simp
    · simp
  · intro hfail pid url hmem
    obtain ⟨hp, hsc, hhe, hnp, hur, hbo, huo⟩ :=
      stateSetRunning_mem_conditions env pid url hmem
    rcases hfail with h | h | h <;> simp_all
  · intro hp hsc hhe pid url hnp hur hbo huo
    rw [startCommandTrace_success env pid url hp hsc hhe hnp hur hbo huo]
    simp

/-- Witness for C8: a fully successful environment whose health gate fails
still commits the running state. -/
theorem start_flow_commit_after_up_witness :
    StartEvent.stateSetRunning 41 "https://t.example" ∈ startCommandTrace
      { prereqsOk := true, stateIsRunning := false, containerRunning := false,
        hasEnvFile := true, ngrokPid := some 41,
        urlResult := some "https://t.example", buildOk := true, upOk := true,
        healthOk := false } :=
  (start_flow_commit_after_up _).2.2 rfl (by simp) rfl 41 "https://t.example"
    rfl rfl rfl rfl

/-! ### DockerService env file (readEnvFile lines 402–424, writeEnvFile lines 429–453)

The `.env.docker` file is modelled at the character level (`List Char`), so
that line splitting, trimming and joining are fully explicit.

* `readEnvFile` splits the content on `"\n"`, trims each line, skips blank
  lines and lines starting with `#`, splits the trimmed line on `"="`, takes
  the first piece as the key (skipped when empty) and rejoins the rest with
  `"="` as the value; a later line for the same key overwrites an earlier
  one (JS object assignment), hence the last-assignment-wins fold.
* `writeEnvFile` starts from the example template's content (empty when the
  template file is absent) and, for each entry with a truthy (non-empty)
  value, either replaces the first line matched by the line-anchored
  multi-line regex `^KEY=.*$` — i.e. the first line that starts with
  `KEY=`, since the keys of `EnvConfig` contain no regex metacharacters —
  or appends `"\nKEY=value"` at the end.  (JavaScript `$`-substitution
  patterns in the replacement string are not modelled; the theorems below
  only exercise the append path.) -/

/-- `content.split("\n")` / `trimmed.split("=")` for a one-character
separator: split at every occurrence; n separators yield n+1 pieces. -/
def splitOnChar (sep : Char) : List Char → List (List Char)
  | [] => [[]]
  | c :: cs =>
    if c = sep then [] :: splitOnChar sep cs
    else
      match splitOnChar sep cs with
      | [] => [[c]]
      | l :: ls => (c :: l) :: ls

/-- `parts.join(sep)`. -/
def intercalateChar (sep : Char) : List (List Char) → List Char
  | [] => []
  | [l] => l
  | l :: ls => l ++ sep :: intercalateChar sep ls

/-- `line.trim()`: drop whitespace from both ends. -/
def trimChars (l : List Char) : List Char :=
  ((l.dropWhile Char.isWhitespace).reverse.dropWhile Char.isWhitespace).reverse

/-- The body of `readEnvFile`'s loop for one line: `none` for skipped lines,
otherwise the key/value pair assigned to the config object. -/
def parseEnvLine (line : List Char) : Option (List Char × List Char) :=
  let trimmed := trimChars line
  if trimmed = [] then none
  else if trimmed.head? = some '#' then none
  else
    match splitOnChar '=' trimmed with
    | [] => none
    | key :: valueParts =>
      if key = [] then none
      else some (key, intercalateChar '=' valueParts)

/-- `DockerService.readEnvFile`, read back as a lookup: the value the parsed
config object holds for `key` (`none` when the key was never assigned). -/
def readEnvFile (content : List Char) (key : List Char) : Option (List Char) :=
  ((splitOnChar '\n' content).filterMap parseEnvLine).foldl
    (fun acc kv => if kv.1 = key then some kv.2 else acc) none

/-- Boolean list-prefix test (self-contained). -/
def isPrefixOfChars : List Char → List Char → Bool
  | [], _ => true
  | _ :: _, [] => false
  | a :: as, b :: bs => a == b && isPrefixOfChars as bs

/-- One line matches the line-anchored regex `^KEY=.*$` iff it starts with
`KEY=`. -/
def lineMatchesKey (key line : List Char) : Bool :=
  isPrefixOfChars (key ++ ['=']) line

/-- `content.replace(regex, ...)` with a non-global multi-line regex:
replace the first matching line wholly by `KEY=value`. -/
def replaceFirstKeyLine (key value : List Char) : List (List Char) → List (List Char)
  | [] => []
  | l :: ls =>
    if lineMatchesKey key l then (key ++ '=' :: value) :: ls
    else l :: replaceFirstKeyLine key value ls

/-- One iteration of `writeEnvFile`'s loop over `Object.entries(config)`:
skip falsy (empty) values; replace the first `^KEY=.*$` line when the regex
tests true on the content; otherwise append `"\nKEY=value"`. -/
def writeEnvStep (content : List Char) (kv : List Char × List Char) : List Char :=
  if kv.2 = [] then content
  else if (splitOnChar '\n' content).any (lineMatchesKey kv.1) then
    intercalateChar '\n' (replaceFirstKeyLine kv.1 kv.2 (splitOnChar '\n' content))
  else content ++ '\n' :: (kv.1 ++ '=' :: kv.2)

/-- `DockerService.writeEnvFile`: fold the entry loop over the template
content (the `.env.docker.example` content, or `[]` when absent). -/
def writeEnvFile (template : List Char) (config : List (List Char × List Char)) :
    List Char :=
  config.foldl writeEnvStep template

/-- Keys of `EnvConfig` (src/config/types.ts) are identifiers such as
`CYRUS_BASE_URL`: non-empty, not starting with `#`, containing neither `=`
nor whitespace (hence no newline). -/
def wfEnvKey (key : List Char) : Prop :=
  key ≠ [] ∧ key.head? ≠ some '#' ∧ ∀ c ∈ key, c ≠ '=' ∧ c.isWhitespace = false

/-- A value that survives the read-back parse: non-empty, no embedded
newline, and not ending in whitespace (trim would drop it). -/
def goodEnvValue (v : List Char) : Prop :=
  v ≠ [] ∧ '\n' ∉ v ∧ ∀ c, v.getLast? = some c → c.isWhitespace = false

/-- The line `KEY=value` appended (or written) for one config entry. -/
def envAssignmentLine (kv : List Char × List Char) : List Char :=
  kv.1 ++ '=' :: kv.2

/-- The text `writeEnvFile` appends after the template when no template line
matches any written key: one `"\nKEY=value"` block per entry, in entry
order. -/
def appendedBlocks : List (List Char × List Char) → List Char
  | [] => []
  | kv :: rest => '\n' :: envAssignmentLine kv ++ appendedBlocks rest

theorem splitOnChar_ne_nil (sep : Char) : ∀ l : List Char, splitOnChar sep l ≠ [] := by
  intro l
  induction l with
  | nil => simp [splitOnChar]
  | cons c cs ih =>
    simp only [splitOnChar]
    by_cases h : c = sep
    · simp [h]
    · simp only [if_neg h]
      cases hs : splitOnChar sep cs with
      | nil => simp
      | cons l ls => simp

theorem splitOnChar_not_mem (sep : Char) :
    ∀ l : List Char, sep ∉ l → splitOnChar sep l = [l] := by
  intro l
  induction l with
  | nil => intro _; rfl
  | cons c cs ih =>
    intro h
    have hc : c ≠ sep := fun e => h (e ▸ List.mem_cons_self c cs)
    have hcs : sep ∉ cs := fun hm => h (List.mem_cons_of_mem c hm)
    simp only [splitOnChar, if_neg hc, ih hcs]

theorem splitOnChar_cons_self (sep : Char) (cs : List Char) :
    splitOnChar sep (sep :: cs) = [] :: splitOnChar sep cs := by
  simp [splitOnChar]

theorem splitOnChar_cons_ne (sep c : Char) (cs : List Char) (h : c ≠ sep) :
    splitOnChar sep (c :: cs) =
      match splitOnChar sep cs with
      | [] => [[c]]
      | l :: ls => (c :: l) :: ls := by
  simp [splitOnChar, h]

theorem splitOnChar_append (sep : Char) : ∀ a b : List Char,
    splitOnChar sep (a ++ sep :: b) = splitOnChar sep a ++ splitOnChar sep b := by
  intro a
  induction a with
  | nil =>
    intro b
    rw [List.nil_append, splitOnChar_cons_self]
    rfl
  | cons c cs ih =>
    intro b
    by_cases hc : c = sep
    · subst hc
      rw [List.cons_append, splitOnChar_cons_self, splitOnChar_cons_self, ih,
        List.cons_append]
    · obtain ⟨h, t, he⟩ : ∃ h t, splitOnChar sep cs = h :: t := by
        cases hs : splitOnChar sep cs with
        | nil => exact absurd hs (splitOnChar_ne_nil sep cs)
        | cons h t => exact ⟨h, t, rfl⟩
      rw [List.cons_append, splitOnChar_cons_ne sep c (cs ++ sep :: b) hc,
        splitOnChar_cons_ne sep c cs hc, ih, he, List.cons_append]
      rfl

theorem intercalateChar_cons (sep : Char) (a : List Char)
    (rest : List (List Char)) (h : rest ≠ []) :
    intercalateChar sep (a :: rest) = a ++ sep :: intercalateChar sep rest := by
  cases rest with
  | nil => exact absurd rfl h
  | cons b bs => rfl

theorem intercalateChar_splitOnChar (sep : Char) :
    ∀ l : List Char, intercalateChar sep (splitOnChar sep l) = l := by
  intro l
  induction l with
  | nil => rfl
  | cons c cs ih =>
    by_cases hc : c = sep
    · rw [hc, splitOnChar_cons_self,
        intercalateChar_cons sep [] (splitOnChar sep cs) (splitOnChar_ne_nil sep cs), ih]
      rfl
    · rw [splitOnChar_cons_ne sep c cs hc]
      obtain ⟨h, t, he⟩ : ∃ h t, splitOnChar sep cs = h :: t := by
        cases hs : splitOnChar sep cs with
        | nil => exact absurd hs (splitOnChar_ne_nil sep cs)
        | cons h t => exact ⟨h, t, rfl⟩
      rw [he] at ih
      rw [he]
      cases t with
      | nil =>
        simp only [intercalateChar] at ih ⊢
        rw [ih]
      | cons t1 ts =>
        rw [show (match (h :: t1 :: ts : List (List Char)) with
            | [] => [[c]]
            | l :: ls => (c :: l) :: ls) = (c :: h) :: t1 :: ts from rfl]
        rw [intercalateChar_cons sep (c :: h) (t1 :: ts) (by simp)]
        rw [intercalateChar_cons sep h (t1 :: ts) (by simp)] at ih
        rw [List.cons_append, ih]

theorem dropWhileChar_eq_self (p : Char → Bool) (l : List Char)
    (h : ∀ c, l.head? = some c → p c = false) : l.dropWhile p = l := by
  cases l with
  | nil => rfl
  | cons c cs =>
    have hc := h c rfl
    simp [List.dropWhile_cons, hc]

theorem getLast?_append_right (a b : List Char) (hb : b ≠ []) :
    (a ++ b).getLast? = b.getLast? := by
  rw [← List.head?_reverse, ← List.head?_reverse, List.reverse_append]
  cases hr : b.reverse with
  | nil =>
    have : b = [] := by simpa using congrArg List.reverse hr
    exact absurd this hb
  | cons x xs => simp [hr]

theorem trimChars_assignment (key v : List Char) (hk : wfEnvKey key)
    (hv : goodEnvValue v) : trimChars (key ++ '=' :: v) = key ++ '=' :: v := by
  obtain ⟨hk0, hkh, hkc⟩ := hk
  obtain ⟨hv0, hvn, hvl⟩ := hv
  unfold trimChars
  have h1 : (key ++ '=' :: v).dropWhile Char.isWhitespace = key ++ '=' :: v := by
    apply dropWhileChar_eq_self
    intro c hc
    cases key with
    | nil => exact absurd rfl hk0
    | cons k0 ks =>
      simp only [List.cons_append, List.head?_cons, Option.some.injEq] at hc
      subst hc
      exact (hkc _ (List.mem_cons_self _ _)).2
  rw [h1]
  have h2 : (key ++ '=' :: v).reverse.dropWhile Char.isWhitespace
      = (key ++ '=' :: v).reverse := by
    apply dropWhileChar_eq_self
    intro c hc
    rw [List.head?_reverse] at hc
    rw [getLast?_append_right key ('=' :: v) (by simp)] at hc
    rw [show ('=' :: v : List Char) = ['='] ++ v from rfl] at hc
    rw [getLast?_append_right ['='] v hv0] at hc
    exact hvl c hc
  rw [h2, List.reverse_reverse]

theorem parseEnvLine_assignment (key v : List Char) (hk : wfEnvKey key)
    (hv : goodEnvValue v) : parseEnvLine (key ++ '=' :: v) = some (key, v) := by
  have hk' := hk
  obtain ⟨hk0, hkh, hkc⟩ := hk'
  have htrim := trimChars_assignment key v hk hv
  simp only [parseEnvLine, htrim]
  have hne : key ++ '=' :: v ≠ [] := by simp
  rw [if_neg hne]
  have hhead : (key ++ '=' :: v).head? ≠ some '#' := by
    cases key with
    | nil => exact absurd rfl hk0
    | cons k0 ks =>
      simp only [List.cons_append, List.head?_cons]
      intro hcon
      simp only [Option.some.injEq] at hcon
      exact absurd (by simp [hcon]) hkh
  rw [if_neg hhead]
  have hsplit : splitOnChar '=' (key ++ '=' :: v) = key :: splitOnChar '=' v := by
    rw [splitOnChar_append '=' key v,
      splitOnChar_not_mem '=' key (fun hm => (hkc '=' hm).1 rfl)]
    rfl
  rw [hsplit]
  simp only [if_neg hk0]
  rw [intercalateChar_splitOnChar]

theorem isPrefixOfChars_key_eq : ∀ (k k' v : List Char), '=' ∉ k → '=' ∉ k' →
    isPrefixOfChars (k ++ ['=']) (k' ++ '=' :: v) = true → k = k' := by
  intro k
  induction k with
  | nil =>
    intro k' v _ hk' h
    cases k' with
    | nil => rfl
    | cons c ks =>
      simp only [List.nil_append, List.cons_append, isPrefixOfChars,
        Bool.and_eq_true, beq_iff_eq] at h
      exact absurd (h.1 ▸ List.mem_cons_self c ks) hk'
  | cons a as ih =>
    intro k' v hk hk' h
    cases k' with
    | nil =>
      simp only [List.cons_append, List.nil_append, isPrefixOfChars,
        Bool.and_eq_true, beq_iff_eq] at h
      exact absurd (h.1 ▸ List.mem_cons_self a as) hk
    | cons b bs =>
      simp only [List.cons_append, isPrefixOfChars, Bool.and_eq_true, beq_iff_eq] at h
      obtain ⟨hab, htail⟩ := h
      subst hab
      rw [ih bs v (fun hm => hk (List.mem_cons_of_mem a hm))
        (fun hm => hk' (List.mem_cons_of_mem a hm)) htail]

theorem lineMatchesKey_other (k k' v : List Char) (hk : '=' ∉ k) (hk' : '=' ∉ k')
    (hne : k ≠ k') : lineMatchesKey k (k' ++ '=' :: v) = false := by
  unfold lineMatchesKey
  cases h : isPrefixOfChars (k ++ ['=']) (k' ++ '=' :: v) with
  | false => rfl
  | true => exact absurd (isPrefixOfChars_key_eq k k' v hk hk' h) hne

theorem assignment_no_newline (k v : List Char) (hk : wfEnvKey k)
    (hv : goodEnvValue v) : '\n' ∉ (k ++ '=' :: v) := by
  obtain ⟨_, _, hkc⟩ := hk
  obtain ⟨_, hvn, _⟩ := hv
  intro hm
  rcases List.mem_append.mp hm with h | h
  · have := (hkc '\n' h).2
    simp at this
  · rcases List.mem_cons.mp h with h | h
    · exact absurd h (by decide)
    · exact hvn h

theorem writeEnvFile_appends : ∀ (config : List (List Char × List Char)) (template : List Char),
    (∀ kv ∈ config, wfEnvKey kv.1) →
    (∀ kv ∈ config, goodEnvValue kv.2) →
    ((config.map Prod.fst).Nodup) →
    (∀ kv ∈ config, ∀ line ∈ splitOnChar '\n' template,
      lineMatchesKey kv.1 line = false) →
    writeEnvFile template config = template ++ appendedBlocks config := by
  intro config
  induction config with
  | nil => intro template _ _ _ _; simp [writeEnvFile, appendedBlocks]
  | cons kv rest ih =>
    intro template hkeys hvals hnodup htempl
    obtain ⟨k, v⟩ := kv
    have hkv_wf : wfEnvKey k := hkeys (k, v) (List.mem_cons_self _ _)
    have hkv_good : goodEnvValue v := hvals (k, v) (List.mem_cons_self _ _)
    have hv0 : v ≠ [] := hkv_good.1
    have hany : (splitOnChar '\n' template).any (lineMatchesKey k) = false := by
      rw [List.any_eq_false]
      intro line hline
      simp [htempl (k, v) (List.mem_cons_self _ _) line hline]
    have hstep : writeEnvStep template (k, v) = template ++ '\n' :: (k ++ '=' :: v) := by
      simp [writeEnvStep, hv0, hany]
    have hcons : writeEnvFile template ((k, v) :: rest)
        = writeEnvFile (writeEnvStep template (k, v)) rest := rfl
    rw [hcons, hstep]
    have hlines : splitOnChar '\n' (template ++ '\n' :: (k ++ '=' :: v))
        = splitOnChar '\n' template ++ [k ++ '=' :: v] := by
      rw [splitOnChar_append '\n' template (k ++ '=' :: v),
        splitOnChar_not_mem '\n' (k ++ '=' :: v) (assignment_no_newline k v hkv_wf hkv_good)]
    rw [ih (template ++ '\n' :: (k ++ '=' :: v))
      (fun kv' h' => hkeys kv' (List.mem_cons_of_mem _ h'))
      (fun kv' h' => hvals kv' (List.mem_cons_of_mem _ h'))
      ((List.nodup_cons.mp hnodup).2)
      ?_]
    · simp [appendedBlocks, envAssignmentLine]
    · intro kv' h' line hline
      rw [hlines] at hline
      rcases List.mem_append.mp hline with h | h
      · exact htempl kv' (List.mem_cons_of_mem _ h') line h
      · rw [List.mem_singleton] at h
        subst h
        refine lineMatchesKey_other kv'.1 k v ?_ ?_ ?_
        · exact fun hm => ((hkeys kv' (List.mem_cons_of_mem _ h')).2.2 '=' hm).1 rfl
        · exact fun hm => (hkv_wf.2.2 '=' hm).1 rfl
        · intro heq
          have hknotin := (List.nodup_cons.mp hnodup).1
          refine hknotin ?_
          rw [← heq]
          exact List.mem_map.mpr ⟨kv', h', rfl⟩

theorem splitOnChar_blocks : ∀ (config : List (List Char × List Char)) (template : List Char),
    (∀ kv ∈ config, '\n' ∉ envAssignmentLine kv) →
    splitOnChar '\n' (template ++ appendedBlocks config)
      = splitOnChar '\n' template ++ config.map envAssignmentLine := by
  intro config
  induction config with
  | nil => intro template _; simp [appendedBlocks]
  | cons kv rest ih =>
    intro template hnl
    have hgroup : template ++ appendedBlocks (kv :: rest)
        = (template ++ '\n' :: envAssignmentLine kv) ++ appendedBlocks rest := by
      simp [appendedBlocks]
    rw [hgroup, ih (template ++ '\n' :: envAssignmentLine kv)
      (fun kv' h' => hnl kv' (List.mem_cons_of_mem _ h'))]
    rw [splitOnChar_append '\n' template (envAssignmentLine kv),
      splitOnChar_not_mem '\n' (envAssignmentLine kv) (hnl kv (List.mem_cons_self _ _))]
    simp

theorem filterMap_parse_blocks : ∀ config : List (List Char × List Char),
    (∀ kv ∈ config, wfEnvKey kv.1) → (∀ kv ∈ config, goodEnvValue kv.2) →
    (config.map envAssignmentLine).filterMap parseEnvLine = config := by
  intro config
  induction config with
  | nil => intro _ _; rfl
  | cons kv rest ih =>
    intro hk hv
    obtain ⟨k, v⟩ := kv
    simp only [List.map_cons, List.filterMap_cons, envAssignmentLine]
    rw [parseEnvLine_assignment k v (hk (k, v) (List.mem_cons_self _ _))
      (hv (k, v) (List.mem_cons_self _ _))]
    rw [ih (fun kv' h' => hk kv' (List.mem_cons_of_mem _ h'))
      (fun kv' h' => hv kv' (List.mem_cons_of_mem _ h'))]

theorem foldl_envLookup_no_key (key : List Char) :
    ∀ (entries : List (List Char × List Char)) (acc : Option (List Char)),
      (∀ p ∈ entries, p.1 ≠ key) →
      entries.foldl (fun acc kv => if kv.1 = key then some kv.2 else acc) acc = acc := by
  intro entries
  induction entries with
  | nil => intro acc _; rfl
  | cons p rest ih =>
    intro acc h
    rw [List.foldl_cons, if_neg (h p (List.mem_cons_self _ _))]
    exact ih acc (fun q hq => h q (List.mem_cons_of_mem _ hq))

theorem foldl_envLookup_found (key : List Char) :
    ∀ (entries : List (List Char × List Char)) (acc : Option (List Char)) (v : List Char),
      (key, v) ∈ entries → (entries.map Prod.fst).Nodup →
      entries.foldl (fun acc kv => if kv.1 = key then some kv.2 else acc) acc = some v := by
  intro entries
  induction entries with
  | nil => intro acc v h _; exact absurd h (List.not_mem_nil _)
  | cons p rest ih =>
    intro acc v hmem hnodup
    rcases List.mem_cons.mp hmem with h | h
    · rw [List.foldl_cons, ← h]
      simp only [if_pos rfl]
      refine foldl_envLookup_no_key key rest (some v) ?_
      intro q hq heq
      have := (List.nodup_cons.mp hnodup).1
      rw [← h] at this
      exact this (heq ▸ List.mem_map.mpr ⟨q, hq, rfl⟩)
    · have hpk : p.1 ≠ key := by
        intro heq
        have hin : key ∈ rest.map Prod.fst := by
          have : (key, v).1 ∈ rest.map Prod.fst := List.mem_map.mpr ⟨(key, v), h, rfl⟩
          simpa using this
        exact (List.nodup_cons.mp hnodup).1 (heq ▸ hin)
      rw [List.foldl_cons, if_neg hpk]
      exact ih acc v h (List.nodup_cons.mp hnodup).2

/-- Counterexample to C6 as stated: the value `" "` (a single space) is
non-empty, yet writing `CYRUS_BASE_URL=" "` over an empty template and
reading it back yields `""` — the read-side `trim()` drops the trailing
space — so the read-back mapping does not agree with the written config. -/
theorem env_roundtrip_counterexample :
    ([' '] : List Char) ≠ [] ∧
    readEnvFile (writeEnvFile [] [("CYRUS_BASE_URL".toList, [' '])])
      "CYRUS_BASE_URL".toList = some [] ∧
    readEnvFile (writeEnvFile [] [("CYRUS_BASE_URL".toList, [' '])])
      "CYRUS_BASE_URL".toList ≠ some [' '] := by
  refine ⟨by decide, by decide, by decide⟩

/-- C6 (amended): the env-file round-trip holds for every config whose keys
are distinct and well-formed (as the fixed `EnvConfig` key set is) and whose
written values are non-empty, contain no newline, and do not end in
whitespace, over any template/base content that contains no `KEY=`-anchored
line for a written key: reading back after writing agrees with the written
config on every written key. -/
theorem env_roundtrip_amended (template : List Char)
    (config : List (List Char × List Char))
    (hkeys : ∀ kv ∈ config, wfEnvKey kv.1)
    (hvals : ∀ kv ∈ config, goodEnvValue kv.2)
    (hnodup : (config.map Prod.fst).Nodup)
    (htempl : ∀ kv ∈ config, ∀ line ∈ splitOnChar '\n' template,
      lineMatchesKey kv.1 line = false) :
    ∀ kv ∈ config, readEnvFile (writeEnvFile template config) kv.1 = some kv.2 := by
  intro kv hmem
  rw [writeEnvFile_appends config template hkeys hvals hnodup htempl]
  unfold readEnvFile
  rw [splitOnChar_blocks config template
    (fun kv' h' => assignment_no_newline kv'.1 kv'.2 (hkeys kv' h') (hvals kv' h'))]
  rw [List.filterMap_append, List.foldl_append]
  rw [filterMap_parse_blocks config hkeys hvals]
  refine foldl_envLookup_found kv.1 config _ kv.2 ?_ hnodup
  simpa using hmem

/-- Witness for the amended C6: writing `CYRUS_BASE_URL=https://x` over an
empty template reads back exactly. -/
theorem env_roundtrip_amended_witness :
    readEnvFile (writeEnvFile [] [("CYRUS_BASE_URL".toList, "https://x".toList)])
      "CYRUS_BASE_URL".toList = some "https://x".toList := by
  refine env_roundtrip_amended [] [("CYRUS_BASE_URL".toList, "https://x".toList)]
    ?_ ?_ ?_ ?_ ("CYRUS_BASE_URL".toList, "https://x".toList) (by decide)
  · intro kv hkv
    rw [List.mem_singleton] at hkv
    subst hkv
    exact ⟨by decide, by decide, by decide⟩
  · intro kv hkv
    rw [List.mem_singleton] at hkv
    subst hkv
    refine ⟨by decide, by decide, ?_⟩
    intro c hc
    have hx : 'x' = c := by
      rw [show ("https://x".toList).getLast? = some 'x' from rfl] at hc
      simpa using hc
    subst hx
    decide
  · decide
  · intro kv hkv line hline
    rw [List.mem_singleton] at hkv
    subst hkv
    simp only [splitOnChar] at hline
    rw [List.mem_singleton] at hline
    subst hline
    decide

end CyrusDocker
